import Mathlib

/-!
Verification of the ECG signal-to-decision pipeline from `src/main.cpp`
(ESP32 Heart Health Monitoring System).

The embedding below translates the pipeline's pure logic into Lean:

* samples and model parameters are modelled as exact numbers (`ℚ` for the
  computable parts, `ℝ` where the code applies `exp`);
* the circular sample buffer of `loop()` / `processECGData()` is explicit
  state passing over `(List ℚ × ℕ)`;
* C++ `std::vector::operator[]` out of bounds is undefined behaviour; where
  a length mismatch could make an access go out of bounds the embedding
  returns `none`.
-/

namespace ECG

/-- `ECG_BUFFER_SIZE` from src/main.cpp: size of the feature vector / window. -/
def ECG_BUFFER_SIZE : ℕ := 140

/-- `SAMPLING_RATE` from src/main.cpp: sampling rate in Hz. -/
def SAMPLING_RATE : ℕ := 360

/-- `ANOMALY_COOLDOWN` from src/main.cpp: ms between consecutive anomaly alerts. -/
def ANOMALY_COOLDOWN : ℕ := 3000

/-!
### Sample Buffer (`loop()` lines 126–139 and `processECGData()` lines 270–278)

`loop()` writes the new voltage at `bufferIndex`, advances
`bufferIndex = (bufferIndex + 1) % ECG_BUFFER_SIZE`, and calls
`processECGData()` exactly when the index has wrapped to zero;
`processECGData()` then reconstructs the window as
`currentECG[i] = ecgBuffer[(bufferIndex + i) % ECG_BUFFER_SIZE]`.
The buffer size is the constant `N` (140 in the source); the embedding takes
it as a parameter.
-/

/-- One sample push into the circular buffer, returning the new
`(buffer, index)` state and the completed window, if any, exactly as
`loop()`/`processECGData()` produce it. -/
def pushSample (N : ℕ) (buf : List ℚ) (idx : ℕ) (s : ℚ) :
    (List ℚ × ℕ) × Option (List ℚ) :=
  let buf' := buf.set idx s
  let idx' := (idx + 1) % N
  let out :=
    if idx' = 0 then
      some ((List.range N).map (fun i => buf'.getD ((idx' + i) % N) 0))
    else none
  ((buf', idx'), out)

/-- Push a whole list of samples, recording the per-push window output. -/
def runBuffer (N : ℕ) : List ℚ × ℕ → List ℚ → (List ℚ × ℕ) × List (Option (List ℚ))
  | st, [] => (st, [])
  | (buf, idx), s :: rest =>
    let step := pushSample N buf idx s
    let tail := runBuffer N step.1 rest
    (tail.1, step.2 :: tail.2)

/-- Reading every slot of a list (by `getD`) reproduces the list. -/
theorem map_range_getD (l : List ℚ) :
    (List.range l.length).map (fun i => l.getD i 0) = l := by
  apply List.ext_getElem
  · simp
  · intro i h1 h2
    simp [List.getD_eq_getElem?_getD, List.getElem?_eq_getElem h2]

/-- Setting the slot at `i` and truncating after it appends the new element
to the first `i` slots. -/
theorem take_succ_set (l : List ℚ) (i : ℕ) (x : ℚ) (h : i < l.length) :
    (l.set i x).take (i + 1) = l.take i ++ [x] := by
  rw [List.set_eq_take_cons_drop x h]
  rw [List.take_append_eq_append_take]
  have hlen : (l.take i).length = i := List.length_take_of_le (le_of_lt h)
  simp [hlen]

/-- Generalized buffer run: starting at cursor `idx` with `idx + |s| = N`
pushes of `s`, the buffer emits nothing until the last push, which emits the
window `buf.take idx ++ s`, leaving the state `(buf.take idx ++ s, 0)`. -/
theorem runBuffer_fill (N : ℕ) :
    ∀ (s : List ℚ) (buf : List ℚ) (idx : ℕ), s ≠ [] → buf.length = N →
      idx + s.length = N →
      runBuffer N (buf, idx) s =
        ((buf.take idx ++ s, 0),
          List.replicate (s.length - 1) none ++ [some (buf.take idx ++ s)]) := by
  intro s
  induction s with
  | nil => intro buf idx h _ _; exact absurd rfl h
  | cons x rest ih =>
    intro buf idx _ hbuf hlen
    rw [List.length_cons] at hlen
    have hidx : idx < N := by omega
    have hidxb : idx < buf.length := by omega
    have hset : (buf.set idx x).length = N := by simpa using hbuf
    have htake : (buf.set idx x).take (idx + 1) = buf.take idx ++ [x] :=
      take_succ_set buf idx x hidxb
    by_cases hr : rest = []
    · subst hr
      have hN : idx + 1 = N := by simpa using hlen
      have hmod : (idx + 1) % N = 0 := by rw [hN]; exact Nat.mod_self N
      have hfin : buf.set idx x = buf.take idx ++ [x] := by
        rw [← htake]
        exact (List.take_of_length_le (by omega)).symm
      have hwin : (List.range N).map (fun i => (buf.set idx x).getD ((0 + i) % N) 0)
          = buf.set idx x := by
        have hmr := map_range_getD (buf.set idx x)
        rw [hset] at hmr
        refine Eq.trans (List.map_congr_left ?_) hmr
        intro i hi
        rw [List.mem_range] at hi
        rw [Nat.zero_add, Nat.mod_eq_of_lt hi]
      simp only [runBuffer, pushSample, hmod, if_pos rfl]
      rw [hwin, hfin]
      simp
    · have hrest : rest.length ≠ 0 := by
        intro h0; exact hr (List.eq_nil_of_length_eq_zero h0)
      have hmod : (idx + 1) % N = idx + 1 := by
        apply Nat.mod_eq_of_lt; omega
      have hlen' : (idx + 1) + rest.length = N := by omega
      have hrec := ih (buf.set idx x) (idx + 1) hr hset hlen'
      simp only [runBuffer, pushSample]
      rw [hmod]
      rw [if_neg (by omega : ¬ (idx + 1 = 0))]
      rw [hrec, htake]
      have hre : (x :: rest).length - 1 = (rest.length - 1) + 1 := by
        rw [List.length_cons]; omega
      rw [hre, List.replicate_succ]
      simp

/-- C2: starting at a wrapped cursor (as at boot), every sequence of `N`
pushes makes the Sample Buffer emit a completed Window exactly on the `N`-th
push (the first `N - 1` pushes emit nothing), the Window is exactly the `N`
pushed samples oldest-first, and the cursor wraps back to zero so the cycle
repeats every `N` pushes. -/
theorem sampleBuffer_window_on_Nth_push (N : ℕ) (buf s : List ℚ)
    (hN : 0 < N) (hbuf : buf.length = N) (hs : s.length = N) :
    runBuffer N (buf, 0) s =
      ((s, 0), List.replicate (N - 1) none ++ [some s]) := by
  have hne : s ≠ [] := by
    intro h0; rw [h0] at hs; simp at hs; omega
  have := runBuffer_fill N s buf 0 hne hbuf (by omega)
  simpa [hs] using this

/-- Witness for C2 at a concrete buffer size. -/
theorem sampleBuffer_window_on_Nth_push_witness :
    0 < 3 ∧ ([(0 : ℚ), 0, 0]).length = 3 ∧ ([(5 : ℚ), 6, 7]).length = 3 ∧
      runBuffer 3 ([(0 : ℚ), 0, 0], 0) [5, 6, 7] =
        (([5, 6, 7], 0), [none, none, some [5, 6, 7]]) := by
  refine ⟨by decide, by decide, by decide, ?_⟩
  have := sampleBuffer_window_on_Nth_push 3 [(0 : ℚ), 0, 0] [5, 6, 7]
    (by decide) (by decide) (by decide)
  simpa [List.replicate] using this

/-!
### Rate Estimator (`calculateHeartRate`, src/main.cpp lines 302–325)

Single-pass peak detector: a rise begins when the sample strictly exceeds
its predecessor and the threshold `1.5` while not already rising; a peak is
counted, and the rising state cleared, when a later sample strictly
decreases.
-/

/-- The peak-detection loop of `calculateHeartRate`, carrying the previous
sample, the `rising` flag and the count across the window. -/
def peakLoop (threshold : ℚ) : ℚ → Bool → ℕ → List ℚ → ℕ
  | _, _, count, [] => count
  | prev, rising, count, x :: xs =>
    if ¬rising ∧ x > prev ∧ x > threshold then
      peakLoop threshold x true count xs
    else if rising ∧ x < prev then
      peakLoop threshold x false (count + 1) xs
    else
      peakLoop threshold x rising count xs

/-- Number of peaks `calculateHeartRate` counts in a window (threshold 1.5,
starting not-rising at the first sample). -/
def countPeaks (ecgData : List ℚ) : ℕ :=
  match ecgData with
  | [] => 0
  | x :: xs => peakLoop (3 / 2) x false 0 xs

/-- `calculateHeartRate` from src/main.cpp: peaks per window scaled to BPM,
the window duration being `ECG_BUFFER_SIZE / SAMPLING_RATE` seconds. -/
def calculateHeartRate (ecgData : List ℚ) : ℚ :=
  let peakCount := countPeaks ecgData
  let timeWindowInSeconds : ℚ := (ECG_BUFFER_SIZE : ℚ) / (SAMPLING_RATE : ℚ)
  (peakCount * 60) / timeWindowInSeconds

/-- `m` repetitions of the synthetic rise-then-fall peak pattern `[0, 2]`:
each block rises strictly above the threshold `1.5` and then falls. -/
def altChunk : ℕ → List ℚ
  | 0 => []
  | m + 1 => 0 :: 2 :: altChunk m

/-- A window made of `ECG_BUFFER_SIZE / 2 = 70` synthetic rise-then-fall
peaks above the threshold: samples alternate between 0 and 2. -/
def altWindow : List ℚ := altChunk 70

theorem altChunk_length (m : ℕ) : (altChunk m).length = 2 * m := by
  induction m with
  | zero => rfl
  | succ m ih => simp [altChunk, ih]; omega

/-- Step lemma: a strict rise above the threshold sets the rising flag. -/
theorem peakLoop_rise (t prev x : ℚ) (c : ℕ) (xs : List ℚ)
    (h1 : x > prev) (h2 : x > t) :
    peakLoop t prev false c (x :: xs) = peakLoop t x true c xs := by
  rw [peakLoop, if_pos ⟨by simp, h1, h2⟩]

/-- Step lemma: a strict fall while rising counts a peak and clears the flag. -/
theorem peakLoop_fall (t prev x : ℚ) (c : ℕ) (xs : List ℚ) (h : x < prev) :
    peakLoop t prev true c (x :: xs) = peakLoop t x false (c + 1) xs := by
  rw [peakLoop, if_neg (by simp), if_pos ⟨rfl, h⟩]

/-- On the alternating pattern, every `[0, 2]` block after a completed rise
contributes exactly one counted peak. -/
theorem peakLoop_altChunk (m : ℕ) :
    ∀ c : ℕ, peakLoop (3 / 2) 2 true c (altChunk m) = c + m := by
  induction m with
  | zero => intro c; simp [altChunk, peakLoop]
  | succ m ih =>
    intro c
    rw [altChunk, peakLoop_fall _ _ _ _ _ (by norm_num),
      peakLoop_rise _ _ _ _ _ (by norm_num) (by norm_num), ih]
    omega

/-- The 70-peak synthetic window completes only 69 rise-then-fall peaks:
the final rise has no in-window fall. -/
theorem countPeaks_altWindow : countPeaks altWindow = 69 := by
  show countPeaks (altChunk 70) = 69
  rw [show altChunk 70 = 0 :: 2 :: altChunk 69 from rfl]
  rw [countPeaks, peakLoop_rise _ _ _ _ _ (by norm_num) (by norm_num),
    peakLoop_altChunk]

/-- Each counted peak consumes one strict rise and one strict fall, so the
loop counts at most half of the remaining samples (plus a pending rise). -/
theorem peakLoop_le (threshold : ℚ) :
    ∀ (xs : List ℚ) (prev : ℚ) (rising : Bool) (count : ℕ),
      peakLoop threshold prev rising count xs ≤
        count + (xs.length + (if rising then 1 else 0)) / 2 := by
  intro xs
  induction xs with
  | nil => intro prev rising count; simp [peakLoop]
  | cons x rest ih =>
    intro prev rising count
    rw [peakLoop]
    by_cases h1 : ¬rising ∧ x > prev ∧ x > threshold
    · rw [if_pos h1]
      have hr : rising = false := by
        rcases h1 with ⟨hnr, -, -⟩
        cases rising
        · rfl
        · simp at hnr
      have := ih x true count
      rw [hr]
      simp only [if_pos rfl] at this ⊢
      simp only [if_neg (by simp : ¬ (false = true))]
      calc peakLoop threshold x true count rest
          ≤ count + (rest.length + 1) / 2 := this
        _ ≤ count + (rest.length + 1 + 0) / 2 := by omega
        _ = count + ((x :: rest).length + 0) / 2 := by rw [List.length_cons]
    · rw [if_neg h1]
      by_cases h2 : rising = true ∧ x < prev
      · rw [if_pos h2]
        have := ih x false (count + 1)
        rcases h2 with ⟨hr, -⟩
        rw [hr]
        simp only [if_neg (by simp : ¬ (false = true))] at this
        simp only [if_pos rfl]
        calc peakLoop threshold x false (count + 1) rest
            ≤ count + 1 + (rest.length + 0) / 2 := this
          _ ≤ count + ((x :: rest).length + 1) / 2 := by
              rw [List.length_cons]; omega
      · rw [if_neg h2]
        have := ih x rising count
        calc peakLoop threshold x rising count rest
            ≤ count + (rest.length + (if rising then 1 else 0)) / 2 := this
          _ ≤ count + ((x :: rest).length + (if rising then 1 else 0)) / 2 := by
              rw [List.length_cons]
              cases rising <;> simp <;> omega

/-- A window of `n` samples can complete at most `(n - 1) / 2` peaks. -/
theorem countPeaks_le (w : List ℚ) : countPeaks w ≤ (w.length - 1) / 2 := by
  cases w with
  | nil => simp [countPeaks]
  | cons x xs =>
    have := peakLoop_le (3 / 2) xs x false 0
    simp only [if_neg (by simp : ¬ (false = true))] at this
    rw [countPeaks, List.length_cons]
    calc peakLoop (3 / 2) x false 0 xs ≤ 0 + (xs.length + 0) / 2 := this
      _ = xs.length / 2 := by omega
      _ = (xs.length + 1 - 1) / 2 := by omega

/-- C3 counterexample: a window of size `N = 140` built from `N/2 = 70`
synthetic rise-then-fall peaks above the threshold does not yield
`(N/2) * 60 * R / N` BPM: only 69 peaks complete inside the window, so
`calculateHeartRate` returns `74520/7` rather than the claimed `10800`. -/
theorem calculateHeartRate_scenario_fails :
    altWindow.length = ECG_BUFFER_SIZE ∧
      countPeaks altWindow = ECG_BUFFER_SIZE / 2 - 1 ∧
      calculateHeartRate altWindow ≠
        ((ECG_BUFFER_SIZE : ℚ) / 2) * 60 * (SAMPLING_RATE : ℚ) / (ECG_BUFFER_SIZE : ℚ) := by
  refine ⟨?_, ?_, ?_⟩
  · show (altChunk 70).length = ECG_BUFFER_SIZE
    rw [altChunk_length, ECG_BUFFER_SIZE]
  · rw [countPeaks_altWindow, ECG_BUFFER_SIZE]
  · rw [calculateHeartRate, countPeaks_altWindow]
    show ((69 : ℚ) * 60) / ((ECG_BUFFER_SIZE : ℚ) / (SAMPLING_RATE : ℚ)) ≠ _
    rw [ECG_BUFFER_SIZE, SAMPLING_RATE]
    norm_num

/-- C3 (amended): `calculateHeartRate` counts peaks in a single pass (a rise
begins on a strict increase above the threshold while not rising; a peak is
counted on a subsequent strict decrease) and returns
`peakCount * 60 / (N / samplingRateHz)` BPM; but an `N`-sample window can
complete at most `(N-1)/2 = 69` rise-then-fall peaks, so `N/2` counted
peaks are impossible, and the `N/2`-synthetic-peak window yields
`(N/2 - 1) * 60 * R / N` BPM, the last rise having no in-window fall. -/
theorem calculateHeartRate_correct :
    (∀ w : List ℚ, calculateHeartRate w =
        (countPeaks w * 60) / ((ECG_BUFFER_SIZE : ℚ) / (SAMPLING_RATE : ℚ))) ∧
      (∀ w : List ℚ, w.length = ECG_BUFFER_SIZE → countPeaks w ≤ 69) ∧
      calculateHeartRate altWindow =
        ((ECG_BUFFER_SIZE : ℚ) / 2 - 1) * 60 * (SAMPLING_RATE : ℚ) / (ECG_BUFFER_SIZE : ℚ) := by
  refine ⟨fun w => rfl, ?_, ?_⟩
  · intro w hw
    have := countPeaks_le w
    rw [hw] at this
    exact this.trans (by rw [ECG_BUFFER_SIZE])
  · rw [calculateHeartRate, countPeaks_altWindow]
    show ((69 : ℚ) * 60) / ((ECG_BUFFER_SIZE : ℚ) / (SAMPLING_RATE : ℚ)) = _
    rw [ECG_BUFFER_SIZE, SAMPLING_RATE]
    norm_num

/-- Witness for C3 (amended) at the concrete synthetic window. -/
theorem calculateHeartRate_correct_witness :
    altWindow.length = ECG_BUFFER_SIZE ∧ countPeaks altWindow ≤ 69 := by
  refine ⟨?_, calculateHeartRate_correct.2.1 altWindow ?_⟩ <;>
    · show (altChunk 70).length = ECG_BUFFER_SIZE
      rw [altChunk_length, ECG_BUFFER_SIZE]

/-!
### Rate smoothing (`processECGData`, src/main.cpp lines 281–284)

`if (newHeartRate > 0) heartRate = 0.7 * heartRate + 0.3 * newHeartRate;`
-/

/-- The exponential smoothing update applied to the persistent heart-rate
estimate after each window. -/
def smoothedUpdate (prev new : ℚ) : ℚ :=
  if new > 0 then 7 / 10 * prev + 3 / 10 * new else prev

/-- `z` lies strictly between `a` and `b` (in either order). -/
def strictlyBetween (a z b : ℚ) : Prop :=
  (a < z ∧ z < b) ∨ (b < z ∧ z < a)

/-- C4 counterexample: when the raw estimate equals the prior estimate
(`p = n = 100 > 0`), the smoothed value equals both, so it does not lie
strictly between them. -/
theorem smoothedUpdate_not_always_between :
    (0 : ℚ) < 100 ∧ smoothedUpdate 100 100 = 100 ∧
      ¬ strictlyBetween 100 (smoothedUpdate 100 100) 100 := by
  have h : smoothedUpdate 100 100 = 100 := by
    rw [smoothedUpdate, if_pos (by norm_num)]
    norm_num
  refine ⟨by norm_num, h, ?_⟩
  rw [h, strictlyBetween]
  push_neg
  constructor <;> intro hlt <;> exact absurd hlt (lt_irrefl _)

/-- C4 (amended): a zero raw estimate leaves the smoothed estimate exactly
unchanged; a positive raw estimate yields `0.7 * prev + 0.3 * new`, which
lies strictly between the two whenever they differ and equals them when
they coincide. -/
theorem smoothedUpdate_correct (p n : ℚ) :
    (n = 0 → smoothedUpdate p n = p) ∧
      (0 < n → smoothedUpdate p n = 7 / 10 * p + 3 / 10 * n ∧
        (p ≠ n → strictlyBetween p (smoothedUpdate p n) n) ∧
        (p = n → smoothedUpdate p n = p)) := by
  constructor
  · intro h
    rw [smoothedUpdate, h, if_neg (by norm_num)]
  · intro hn
    have he : smoothedUpdate p n = 7 / 10 * p + 3 / 10 * n := by
      rw [smoothedUpdate, if_pos hn]
    refine ⟨he, ?_, ?_⟩
    · intro hne
      rw [strictlyBetween, he]
      rcases lt_or_gt_of_ne hne with h | h
      · exact Or.inl ⟨by nlinarith, by nlinarith⟩
      · exact Or.inr ⟨by nlinarith, by nlinarith⟩
    · intro hpn
      rw [he, hpn]
      ring

/-- Witness for C4 (amended) at concrete rates. -/
theorem smoothedUpdate_correct_witness :
    ((50 : ℚ) = 0 → smoothedUpdate 100 50 = 100) ∧
      ((0 : ℚ) < 50 → smoothedUpdate 100 50 = 7 / 10 * 100 + 3 / 10 * 50 ∧
        ((100 : ℚ) ≠ 50 → strictlyBetween 100 (smoothedUpdate 100 50) 50) ∧
        ((100 : ℚ) = 50 → smoothedUpdate 100 50 = 100)) :=
  smoothedUpdate_correct 100 50

/-!
### Alert Debouncer (`processECGData`, src/main.cpp lines 290–299)

`if (isAnomaly && (millis() - lastAnomalyTime > ANOMALY_COOLDOWN))` the code
records the trigger time, raises the buzzer/flag and notifies clients;
otherwise nothing changes and nothing is emitted. `lastAnomalyTime` is a
global initialized to 0 at boot (src/main.cpp line 43). Timestamps are
`millis()` values, nondecreasing from 0, modelled as `ℕ` with truncated
subtraction (the unsigned subtraction never wraps on a monotone clock).
-/

/-- The debouncer's persistent state: the last trigger time and the
`anomalyDetected` flag (buzzer engaged). -/
structure AlertState where
  lastAnomalyTime : ℕ
  anomalyDetected : Bool
  deriving DecidableEq, Repr

/-- Alert state at boot: `lastAnomalyTime = 0`, no anomaly flagged. -/
def bootAlertState : AlertState := ⟨0, false⟩

/-- One classifier decision reaching the debouncer at time `now`; returns
the next state and whether an anomaly notification was emitted. -/
def alertStep (st : AlertState) (isAnomaly : Bool) (now : ℕ) : AlertState × Bool :=
  if isAnomaly ∧ now - st.lastAnomalyTime > ANOMALY_COOLDOWN then
    (⟨now, true⟩, true)
  else
    (st, false)

/-- Feed a timed sequence of classifier decisions through the debouncer,
collecting the timestamps of the emitted anomaly notifications. -/
def alertRun (st : AlertState) : List (Bool × ℕ) → AlertState × List ℕ
  | [] => (st, [])
  | (a, t) :: rest =>
    let step := alertStep st a t
    let tail := alertRun step.1 rest
    (tail.1, if step.2 then t :: tail.2 else tail.2)

/-- Every notification the debouncer emits is strictly later than the
initial last-trigger time plus the cooldown, and consecutive notifications
are always more than a cooldown apart. -/
theorem alertRun_separated :
    ∀ (evs : List (Bool × ℕ)) (st : AlertState),
      (∀ u ∈ (alertRun st evs).2, st.lastAnomalyTime + ANOMALY_COOLDOWN < u) ∧
        List.Chain' (fun a b => a + ANOMALY_COOLDOWN < b) (alertRun st evs).2 := by
  intro evs
  induction evs with
  | nil => intro st; simp [alertRun]
  | cons e rest ih =>
    intro st
    obtain ⟨a, t⟩ := e
    by_cases h : a = true ∧ t - st.lastAnomalyTime > ANOMALY_COOLDOWN
    · have hstep : alertStep st a t = (⟨t, true⟩, true) := by
        rw [alertStep, if_pos ⟨h.1, h.2⟩]
      have ht : st.lastAnomalyTime + ANOMALY_COOLDOWN < t := by
        have := h.2
        omega
      have hrec := ih ⟨t, true⟩
      have hall : alertRun st ((a, t) :: rest)
          = ((alertRun (⟨t, true⟩ : AlertState) rest).1,
              t :: (alertRun (⟨t, true⟩ : AlertState) rest).2) := by
        simp [alertRun, hstep]
      rw [hall]
      constructor
      · intro u hu
        rcases List.mem_cons.mp hu with rfl | hu
        · exact ht
        · have h2 := hrec.1 u hu
          simp only at h2
          omega
      · rw [List.chain'_cons']
        exact ⟨fun u hu => hrec.1 u (List.mem_of_mem_head? hu), hrec.2⟩
    · have hstep : alertStep st a t = (st, false) := by
        rw [alertStep, if_neg ?_]
        intro hc
        exact h ⟨by simpa using hc.1, hc.2⟩
      have hall : alertRun st ((a, t) :: rest) = alertRun st rest := by
        simp [alertRun, hstep]
      rw [hall]
      exact ih st

/-- C5: an Anomalous classification arriving within the cooldown of the
last trigger changes nothing and emits nothing; across any decision
sequence, consecutive notifications are more than a cooldown apart (at most
one activation and one notification per cooldown window); and the concrete
scenario of two Anomalous classifications 100 ms apart (cooldown 3000 ms)
emits exactly one notification. -/
theorem alertDebouncer_cooldown (st : AlertState) (now : ℕ)
    (h : now - st.lastAnomalyTime ≤ ANOMALY_COOLDOWN) :
    alertStep st true now = (st, false) ∧
      (∀ (evs : List (Bool × ℕ)) (st' : AlertState),
        List.Chain' (fun a b => a + ANOMALY_COOLDOWN < b) (alertRun st' evs).2) ∧
      (alertRun bootAlertState [(true, 4000), (true, 4100)]).2 = [4000] := by
  refine ⟨?_, fun evs st' => (alertRun_separated evs st').2, ?_⟩
  · have hng : ¬ ((true : Bool) = true ∧ now - st.lastAnomalyTime > ANOMALY_COOLDOWN) := by
      rintro ⟨-, hc⟩
      omega
    rw [alertStep, if_neg hng]
  · have h1 : alertStep bootAlertState true 4000 = (⟨4000, true⟩, true) := by
      rw [alertStep, if_pos ⟨rfl, by simp [bootAlertState, ANOMALY_COOLDOWN]⟩]
    have h2 : alertStep (⟨4000, true⟩ : AlertState) true 4100 = (⟨4000, true⟩, false) := by
      rw [alertStep, if_neg ?_]
      rintro ⟨-, hc⟩
      have hb : (AlertState.mk 4000 true).lastAnomalyTime = 4000 := rfl
      rw [hb, ANOMALY_COOLDOWN] at hc
      omega
    simp [alertRun, h1, h2]

/-- Witness for C5 at a concrete in-cooldown classification. -/
theorem alertDebouncer_cooldown_witness :
    (4100 - (AlertState.mk 4000 true).lastAnomalyTime ≤ ANOMALY_COOLDOWN) ∧
      alertStep ⟨4000, true⟩ true 4100 = (⟨4000, true⟩, false) := by
  have h : 4100 - (AlertState.mk 4000 true).lastAnomalyTime ≤ ANOMALY_COOLDOWN := by
    rw [ANOMALY_COOLDOWN]
    simp
  exact ⟨h, (alertDebouncer_cooldown ⟨4000, true⟩ 4100 h).1⟩

/-- C10: since `lastAnomalyTime` boots at 0 and a trigger needs
`now - lastAnomalyTime > ANOMALY_COOLDOWN`, no sequence of classifications
whose timestamps all lie within the first cooldown interval can change the
alert state or emit a notification, and any notification ever emitted from
boot comes strictly after `ANOMALY_COOLDOWN` — as if an alert had fired at
time 0. -/
theorem alert_blind_window_after_boot (evs : List (Bool × ℕ))
    (h : ∀ e ∈ evs, e.2 ≤ ANOMALY_COOLDOWN) :
    alertRun bootAlertState evs = (bootAlertState, []) ∧
      ∀ (evs' : List (Bool × ℕ)) (u : ℕ),
        u ∈ (alertRun bootAlertState evs').2 → ANOMALY_COOLDOWN < u := by
  constructor
  · induction evs with
    | nil => rfl
    | cons e rest ih =>
      obtain ⟨a, t⟩ := e
      have ht : t ≤ ANOMALY_COOLDOWN := h (a, t) (List.mem_cons_self _ _)
      have hstep : alertStep bootAlertState a t = (bootAlertState, false) := by
        rw [alertStep, if_neg ?_]
        rintro ⟨-, hc⟩
        have hb : bootAlertState.lastAnomalyTime = 0 := rfl
        rw [hb] at hc
        omega
      have hrest := ih (fun e he => h e (List.mem_cons_of_mem _ he))
      simp [alertRun, hstep, hrest]
  · intro evs' u hu
    have hsep := (alertRun_separated evs' bootAlertState).1 u hu
    have hb : bootAlertState.lastAnomalyTime = 0 := rfl
    rw [hb] at hsep
    omega

/-- Witness for C10: anomalous classifications at 100 ms and 3000 ms after
boot leave the debouncer untouched. -/
theorem alert_blind_window_after_boot_witness :
    (∀ e ∈ [((true : Bool), 100), (true, 3000)], e.2 ≤ ANOMALY_COOLDOWN) ∧
      alertRun bootAlertState [(true, 100), (true, 3000)] = (bootAlertState, []) := by
  have h : ∀ e ∈ [((true : Bool), 100), (true, 3000)], e.2 ≤ ANOMALY_COOLDOWN := by
    rw [ANOMALY_COOLDOWN]
    decide
  exact ⟨h, (alert_blind_window_after_boot _ h).1⟩

/-!
### SVM model, standardization and classification
(`SVMModel` struct, `setupSVMModel`, `standardizeFeatures`, `rbfKernel`,
`detectAnomaly`; src/main.cpp lines 55–64, 162–196, 338–382)
-/

/-- The `SVMModel` struct of src/main.cpp, generic in the scalar type
(`float` in the source; instantiated at `ℚ` or `ℝ` below). -/
structure SVMModel (α : Type) where
  numSupportVectors : ℕ
  gamma : α
  bias : α
  supportVectors : List α
  dualCoefficients : List α
  featureMeans : List α
  featureStds : List α

/-- `setupSVMModel` from src/main.cpp: the hardcoded example model.
`gamma = 0.01`, `bias = -0.5`, means `0`, stds `1`, alternating `±1` dual
coefficients and `supportVectors[i * N + j] = 0.1 * i * j`, the nested fill
loops rendered as a flattened list of rows. -/
def setupSVMModel (α : Type) [Field α] : SVMModel α where
  numSupportVectors := 50
  gamma := 1 / 100
  bias := -(1 / 2)
  supportVectors :=
    ((List.range 50).map (fun (i : ℕ) =>
      (List.range ECG_BUFFER_SIZE).map
        (fun (j : ℕ) => (1 / 10 : α) * (i : α) * (j : α)))).flatten
  dualCoefficients :=
    (List.range 50).map (fun (i : ℕ) => if i % 2 = 0 then (1 : α) else -1)
  featureMeans := List.replicate ECG_BUFFER_SIZE 0
  featureStds := List.replicate ECG_BUFFER_SIZE 1

/-- `standardizeFeatures` from src/main.cpp: per-dimension z-score
`(features[i] - featureMeans[i]) / featureStds[i]` over all dimensions of
the input. The C++ loop indexes the model vectors by each feature index
without any bounds check, so a window longer than the model vectors reads
out of bounds — undefined behaviour, modelled as `none`. -/
def standardizeFeatures {α : Type} [Field α] (features means stds : List α) :
    Option (List α) :=
  if features.length ≤ means.length ∧ features.length ≤ stds.length then
    some ((List.range features.length).map
      (fun i => (features.getD i 0 - means.getD i 0) / stds.getD i 0))
  else none

/-- `rbfKernel` from src/main.cpp:
`K(x, y) = exp(-gamma * ||x - y||²)`, the squared distance accumulated over
the dimensions of `x1`. -/
noncomputable def rbfKernel (x1 x2 : List ℝ) (gamma : ℝ) : ℝ :=
  Real.exp (-gamma * (List.range x1.length).foldl
    (fun acc i => acc + (x1.getD i 0 - x2.getD i 0) * (x1.getD i 0 - x2.getD i 0)) 0)

/-- `detectAnomaly` from src/main.cpp: standardize, then accumulate
`bias + Σ coefficient[i] * K(features, supportVector_i)` over all support
vectors, extracting each support vector row from the flattened table;
returns `true` (Anomalous) iff the decision score is strictly negative. -/
noncomputable def detectAnomaly (ecgData : List ℝ) (model : SVMModel ℝ) :
    Option Bool :=
  match standardizeFeatures ecgData model.featureMeans model.featureStds with
  | none => none
  | some features =>
    let decision := (List.range model.numSupportVectors).foldl
      (fun acc i =>
        let supportVector := (List.range ECG_BUFFER_SIZE).map
          (fun j => model.supportVectors.getD (i * ECG_BUFFER_SIZE + j) 0)
        acc + model.dualCoefficients.getD i 0 * rbfKernel features supportVector model.gamma)
      model.bias
    some (if decision < 0 then true else false)

/-- The decision score as the specification states it: bias plus the sum
over all `M` support vectors of `coefficient[k] * exp(-gamma * ||z - s_k||²)`,
`z` the standardized window, the squared distance summed over all `N`
dimensions. -/
noncomputable def specScore (model : SVMModel ℝ) (w : List ℝ) : ℝ :=
  model.bias + ∑ k ∈ Finset.range model.numSupportVectors,
    model.dualCoefficients.getD k 0 *
      Real.exp (-model.gamma * ∑ j ∈ Finset.range ECG_BUFFER_SIZE,
        ((w.getD j 0 - model.featureMeans.getD j 0) / model.featureStds.getD j 0
          - model.supportVectors.getD (k * ECG_BUFFER_SIZE + j) 0) ^ 2)

/-- A left fold accumulating `f` over `range n` is the starting value plus
the sum of `f`. -/
theorem foldl_add_eq_sum (f : ℕ → ℝ) (b : ℝ) (n : ℕ) :
    (List.range n).foldl (fun acc i => acc + f i) b
      = b + ∑ i ∈ Finset.range n, f i := by
  induction n with
  | zero => simp
  | succ n ih =>
    rw [List.range_succ, List.foldl_append, ih, Finset.sum_range_succ]
    simp [add_assoc]

/-- `getD` on a list built by mapping over `range n` evaluates the map. -/
theorem getD_map_range {α : Type} (g : ℕ → α) (n i : ℕ) (d : α) (h : i < n) :
    ((List.range n).map g).getD i d = g i := by
  rw [List.getD_eq_getElem?_getD, List.getElem?_map, List.getElem?_range h]
  rfl

/-- The loop-and-extract evaluation of `detectAnomaly` computes exactly the
specification's decision score. -/
theorem detectAnomaly_eq_specScore (m : SVMModel ℝ) (w : List ℝ)
    (hw : w.length = ECG_BUFFER_SIZE)
    (hm : ECG_BUFFER_SIZE ≤ m.featureMeans.length)
    (hs : ECG_BUFFER_SIZE ≤ m.featureStds.length) :
    detectAnomaly w m = some (if specScore m w < 0 then true else false) := by
  have hguard : w.length ≤ m.featureMeans.length ∧ w.length ≤ m.featureStds.length := by
    omega
  have hker : ∀ k : ℕ,
      rbfKernel
        ((List.range w.length).map
          (fun i => (w.getD i 0 - m.featureMeans.getD i 0) / m.featureStds.getD i 0))
        ((List.range ECG_BUFFER_SIZE).map
          (fun j => m.supportVectors.getD (k * ECG_BUFFER_SIZE + j) 0))
        m.gamma
      = Real.exp (-m.gamma * ∑ j ∈ Finset.range ECG_BUFFER_SIZE,
          ((w.getD j 0 - m.featureMeans.getD j 0) / m.featureStds.getD j 0
            - m.supportVectors.getD (k * ECG_BUFFER_SIZE + j) 0) ^ 2) := by
    intro k
    rw [rbfKernel]
    simp only [List.length_map, List.length_range, hw]
    rw [foldl_add_eq_sum, zero_add]
    congr 2
    apply Finset.sum_congr rfl
    intro j hj
    rw [Finset.mem_range] at hj
    rw [getD_map_range _ _ _ _ hj, getD_map_range _ _ _ _ hj]
    ring
  have hsum :
      (List.range m.numSupportVectors).foldl
        (fun acc k =>
          acc + m.dualCoefficients.getD k 0 *
            rbfKernel
              ((List.range w.length).map
                (fun i => (w.getD i 0 - m.featureMeans.getD i 0) / m.featureStds.getD i 0))
              ((List.range ECG_BUFFER_SIZE).map
                (fun j => m.supportVectors.getD (k * ECG_BUFFER_SIZE + j) 0))
              m.gamma)
        m.bias = specScore m w := by
    rw [foldl_add_eq_sum, specScore]
    refine congrArg (fun z => m.bias + z) ?_
    refine Finset.sum_congr rfl (fun k _ => ?_)
    rw [hker k]
  rw [detectAnomaly, standardizeFeatures, if_pos hguard]
  simp only
  rw [hsum]

/-- C1: for every window of length `N` and every model with `M` length-`N`
support vectors, `M` dual coefficients and length-`N` mean/std vectors,
`detectAnomaly` returns Anomalous (`true`) iff
`bias + Σₖ coefficient[k] * exp(-gamma * ||standardized - supportVector[k]||²)`
is strictly negative, and Normal (`false`) otherwise; the score visits all
`M` support vectors and all `N` dimensions (`specScore` sums over
`Finset.range M` and `Finset.range N`). -/
theorem detectAnomaly_iff_score_neg (m : SVMModel ℝ) (w : List ℝ)
    (hw : w.length = ECG_BUFFER_SIZE)
    (hm : m.featureMeans.length = ECG_BUFFER_SIZE)
    (hs : m.featureStds.length = ECG_BUFFER_SIZE)
    (hsv : m.supportVectors.length = m.numSupportVectors * ECG_BUFFER_SIZE)
    (hc : m.dualCoefficients.length = m.numSupportVectors) :
    (detectAnomaly w m = some true ↔ specScore m w < 0) ∧
      (detectAnomaly w m = some false ↔ ¬ specScore m w < 0) := by
  have he := detectAnomaly_eq_specScore m w hw (by omega) (by omega)
  rw [he]
  by_cases h : specScore m w < 0 <;> simp [h]

/-- A small well-shaped model used to instantiate the classifier theorem:
one all-zero support vector, coefficient `1`, zero means, unit stds. -/
noncomputable def witModel : SVMModel ℝ where
  numSupportVectors := 1
  gamma := 1
  bias := -1
  supportVectors := List.replicate ECG_BUFFER_SIZE 0
  dualCoefficients := [1]
  featureMeans := List.replicate ECG_BUFFER_SIZE 0
  featureStds := List.replicate ECG_BUFFER_SIZE 1

/-- Witness for C1 at the all-zero window and the small concrete model. -/
theorem detectAnomaly_iff_score_neg_witness :
    (List.replicate ECG_BUFFER_SIZE (0 : ℝ)).length = ECG_BUFFER_SIZE ∧
      witModel.featureMeans.length = ECG_BUFFER_SIZE ∧
      witModel.featureStds.length = ECG_BUFFER_SIZE ∧
      witModel.supportVectors.length = witModel.numSupportVectors * ECG_BUFFER_SIZE ∧
      witModel.dualCoefficients.length = witModel.numSupportVectors ∧
      ((detectAnomaly (List.replicate ECG_BUFFER_SIZE (0 : ℝ)) witModel = some true ↔
          specScore witModel (List.replicate ECG_BUFFER_SIZE (0 : ℝ)) < 0) ∧
        (detectAnomaly (List.replicate ECG_BUFFER_SIZE (0 : ℝ)) witModel = some false ↔
          ¬ specScore witModel (List.replicate ECG_BUFFER_SIZE (0 : ℝ)) < 0)) := by
  have h1 : (List.replicate ECG_BUFFER_SIZE (0 : ℝ)).length = ECG_BUFFER_SIZE := by simp
  have h2 : witModel.featureMeans.length = ECG_BUFFER_SIZE := by simp [witModel]
  have h3 : witModel.featureStds.length = ECG_BUFFER_SIZE := by simp [witModel]
  have h4 : witModel.supportVectors.length
      = witModel.numSupportVectors * ECG_BUFFER_SIZE := by simp [witModel]
  have h5 : witModel.dualCoefficients.length = witModel.numSupportVectors := by
    simp [witModel]
  exact ⟨h1, h2, h3, h4, h5,
    detectAnomaly_iff_score_neg witModel (List.replicate ECG_BUFFER_SIZE 0) h1 h2 h3 h4 h5⟩

/-- C6: for positive kernel width and equal-length vectors, the RBF kernel
satisfies `K(x, x) = 1`, `0 < K(x, y) ≤ 1`, and `K(x, y) = K(y, x)`. -/
theorem rbfKernel_props (x y : List ℝ) (g : ℝ) (hg : 0 < g)
    (hlen : x.length = y.length) :
    rbfKernel x x g = 1 ∧ 0 < rbfKernel x y g ∧ rbfKernel x y g ≤ 1 ∧
      rbfKernel x y g = rbfKernel y x g := by
  refine ⟨?_, Real.exp_pos _, ?_, ?_⟩
  · rw [rbfKernel]
    rw [foldl_add_eq_sum, zero_add]
    rw [Finset.sum_eq_zero (fun i _ => by rw [sub_self, mul_zero])]
    rw [mul_zero, Real.exp_zero]
  · rw [rbfKernel]
    rw [foldl_add_eq_sum, zero_add]
    rw [Real.exp_le_one_iff, neg_mul, neg_nonpos]
    exact mul_nonneg hg.le
      (Finset.sum_nonneg (fun i _ => mul_self_nonneg _))
  · rw [rbfKernel, rbfKernel]
    rw [foldl_add_eq_sum, foldl_add_eq_sum, zero_add, zero_add, hlen]
    congr 2
    apply Finset.sum_congr rfl
    intro i _
    ring

/-- Witness for C6 at concrete vectors and width. -/
theorem rbfKernel_props_witness :
    (0 : ℝ) < 1 ∧ ([(0 : ℝ), 3]).length = ([(4 : ℝ), 0]).length ∧
      (rbfKernel [(0 : ℝ), 3] [(0 : ℝ), 3] 1 = 1 ∧
        0 < rbfKernel [(0 : ℝ), 3] [(4 : ℝ), 0] 1 ∧
        rbfKernel [(0 : ℝ), 3] [(4 : ℝ), 0] 1 ≤ 1 ∧
        rbfKernel [(0 : ℝ), 3] [(4 : ℝ), 0] 1 = rbfKernel [(4 : ℝ), 0] [(0 : ℝ), 3] 1) :=
  ⟨by norm_num, by simp,
    rbfKernel_props [(0 : ℝ), 3] [(4 : ℝ), 0] 1 (by norm_num) (by simp)⟩

/-- C7: with matching lengths and non-zero per-dimension standard
deviations, standardization succeeds and is reversible:
`standardize(w)[i] * std[i] + mean[i] = w[i]` in every dimension. -/
theorem standardize_roundtrip (w means stds : List ℚ)
    (h1 : w.length = means.length) (h2 : w.length = stds.length)
    (h0 : ∀ i < stds.length, stds.getD i 0 ≠ 0) :
    ∃ r, standardizeFeatures w means stds = some r ∧ r.length = w.length ∧
      ∀ i < w.length, r.getD i 0 * stds.getD i 0 + means.getD i 0 = w.getD i 0 := by
  refine ⟨_, by rw [standardizeFeatures, if_pos ⟨le_of_eq h1, le_of_eq h2⟩], ?_, ?_⟩
  · simp
  · intro i hi
    rw [getD_map_range _ _ _ _ hi]
    rw [div_mul_cancel₀ _ (h0 i (by omega))]
    exact sub_add_cancel _ _

/-- Witness for C7 at a concrete window and model statistics. -/
theorem standardize_roundtrip_witness :
    ([(1 : ℚ), 2]).length = ([(0 : ℚ), 1]).length ∧
      ([(1 : ℚ), 2]).length = ([(2 : ℚ), 4]).length ∧
      (∀ i < ([(2 : ℚ), 4]).length, ([(2 : ℚ), 4]).getD i 0 ≠ 0) ∧
      ∃ r, standardizeFeatures [(1 : ℚ), 2] [0, 1] [2, 4] = some r ∧
        r.length = ([(1 : ℚ), 2]).length ∧
        ∀ i < ([(1 : ℚ), 2]).length,
          r.getD i 0 * ([(2 : ℚ), 4]).getD i 0 + ([(0 : ℚ), 1]).getD i 0
            = ([(1 : ℚ), 2]).getD i 0 := by
  have h0 : ∀ i < ([(2 : ℚ), 4]).length, ([(2 : ℚ), 4]).getD i 0 ≠ 0 := by decide
  exact ⟨by decide, by decide, h0,
    standardize_roundtrip [1, 2] [0, 1] [2, 4] (by decide) (by decide) h0⟩

/-- C8 counterexample: a window strictly shorter than the model's vectors
has a mismatched length, yet `standardizeFeatures` does not fail — it
standardizes the window's single dimension and returns a result. -/
theorem standardize_no_defensive_failure :
    ([(1 : ℚ)]).length ≠ ([(0 : ℚ), 0]).length ∧
      standardizeFeatures [(1 : ℚ)] [0, 0] [1, 1] = some [1] := by
  constructor
  · decide
  · rw [standardizeFeatures, if_pos (by constructor <;> decide)]
    rw [show List.range ([(1 : ℚ)]).length = [0] from rfl]
    norm_num

/-- C8 (amended): `standardizeFeatures` performs no defensive length check.
It returns a standardized vector exactly when the window is at most as long
as the model's mean and std vectors — in particular whenever the lengths
match, but also when the window is strictly shorter — and it goes out of
bounds (modelled as `none`) exactly when the window is strictly longer than
a model vector. -/
theorem standardize_succeeds_iff_within_bounds (w means stds : List ℚ) :
    ((standardizeFeatures w means stds).isSome = true ↔
      w.length ≤ means.length ∧ w.length ≤ stds.length) ∧
      (w.length = means.length → w.length = stds.length →
        ∃ r, standardizeFeatures w means stds = some r ∧ r.length = w.length ∧
          ∀ i < w.length,
            r.getD i 0 = (w.getD i 0 - means.getD i 0) / stds.getD i 0) := by
  constructor
  · rw [standardizeFeatures]
    by_cases h : w.length ≤ means.length ∧ w.length ≤ stds.length <;> simp [h]
  · intro hm hs
    refine ⟨_, by rw [standardizeFeatures, if_pos ⟨le_of_eq hm, le_of_eq hs⟩], ?_, ?_⟩
    · simp
    · intro i hi
      rw [getD_map_range _ _ _ _ hi]

/-- Witness for C8 (amended) at a concrete matching-length window. -/
theorem standardize_succeeds_iff_within_bounds_witness :
    ([(4 : ℚ)]).length = ([(1 : ℚ)]).length ∧ ([(4 : ℚ)]).length = ([(2 : ℚ)]).length ∧
      ∃ r, standardizeFeatures [(4 : ℚ)] [1] [2] = some r ∧
        r.length = ([(4 : ℚ)]).length ∧
        ∀ i < ([(4 : ℚ)]).length,
          r.getD i 0 = (([(4 : ℚ)]).getD i 0 - ([(1 : ℚ)]).getD i 0) / ([(2 : ℚ)]).getD i 0 :=
  ⟨by decide, by decide,
    (standardize_succeeds_iff_within_bounds [4] [1] [2]).2 (by decide) (by decide)⟩

/-- A list of equal-length blocks flattens to a list of predictable
length. -/
theorem length_flatten_const {α : Type} (L : List (List α)) (n : ℕ)
    (h : ∀ l ∈ L, l.length = n) : L.flatten.length = L.length * n := by
  induction L with
  | nil => simp
  | cons a t ih =>
    rw [List.flatten_cons, List.length_append, h a (List.mem_cons_self _ _),
      ih (fun l hl => h l (List.mem_cons_of_mem _ hl)), List.length_cons]
    ring

/-- A defective model artifact for C9: well-shaped but with every
standard deviation equal to zero (`N = 1` support vector for brevity). -/
noncomputable def zeroStdModel : SVMModel ℝ where
  numSupportVectors := 1
  gamma := 1
  bias := -1
  supportVectors := List.replicate ECG_BUFFER_SIZE 0
  dualCoefficients := [1]
  featureMeans := List.replicate ECG_BUFFER_SIZE 0
  featureStds := List.replicate ECG_BUFFER_SIZE 0

/-- C9 counterexample: under a model whose standard deviations are all
zero — a configuration defect per the specification — the pipeline still
classifies a window (`detectAnomaly` returns a decision) rather than
refusing to run: no validation exists anywhere in the startup path. -/
theorem pipeline_classifies_with_zero_std :
    (∃ i, i < ECG_BUFFER_SIZE ∧ zeroStdModel.featureStds.getD i 0 = 0) ∧
      (detectAnomaly (List.replicate ECG_BUFFER_SIZE 0) zeroStdModel).isSome = true := by
  constructor
  · refine ⟨0, by rw [ECG_BUFFER_SIZE]; omega, ?_⟩
    show (List.replicate ECG_BUFFER_SIZE (0 : ℝ)).getD 0 0 = 0
    rw [List.getD_eq_getElem?_getD, List.getElem?_replicate]
    rw [if_pos (by rw [ECG_BUFFER_SIZE]; omega)]
    rfl
  · have hguard : (List.replicate ECG_BUFFER_SIZE (0 : ℝ)).length
        ≤ zeroStdModel.featureMeans.length ∧
        (List.replicate ECG_BUFFER_SIZE (0 : ℝ)).length
          ≤ zeroStdModel.featureStds.length := by
      constructor <;> simp [zeroStdModel]
    rw [detectAnomaly, standardizeFeatures, if_pos hguard]
    rfl

/-- C9 (amended): startup never validates and never refuses — instead
`setupSVMModel` hardcodes a model that satisfies the shape invariants by
construction: `M * N` support-vector entries, `M` dual coefficients,
length-`N` mean and std vectors, and every standard deviation is `1`,
hence non-zero. -/
theorem setupSVMModel_wellformed :
    (setupSVMModel ℚ).supportVectors.length
        = (setupSVMModel ℚ).numSupportVectors * ECG_BUFFER_SIZE ∧
      (setupSVMModel ℚ).dualCoefficients.length = (setupSVMModel ℚ).numSupportVectors ∧
      (setupSVMModel ℚ).featureMeans.length = ECG_BUFFER_SIZE ∧
      (setupSVMModel ℚ).featureStds.length = ECG_BUFFER_SIZE ∧
      ∀ i < ECG_BUFFER_SIZE, (setupSVMModel ℚ).featureStds.getD i 0 ≠ 0 := by
  refine ⟨?_, by simp [setupSVMModel], by simp [setupSVMModel],
    by simp [setupSVMModel], ?_⟩
  · have hall : ∀ l ∈ (List.range 50).map (fun (i : ℕ) =>
        (List.range ECG_BUFFER_SIZE).map
          (fun (j : ℕ) => (1 / 10 : ℚ) * (i : ℚ) * (j : ℚ))),
        l.length = ECG_BUFFER_SIZE := by
      intro l hl
      rw [List.mem_map] at hl
      obtain ⟨i, -, rfl⟩ := hl
      simp
    rw [show (setupSVMModel ℚ).supportVectors = ((List.range 50).map (fun (i : ℕ) =>
        (List.range ECG_BUFFER_SIZE).map
          (fun (j : ℕ) => (1 / 10 : ℚ) * (i : ℚ) * (j : ℚ)))).flatten from rfl]
    rw [show (setupSVMModel ℚ).numSupportVectors = 50 from rfl]
    rw [length_flatten_const _ ECG_BUFFER_SIZE hall]
    simp
  · intro i hi
    show (List.replicate ECG_BUFFER_SIZE (1 : ℚ)).getD i 0 ≠ 0
    rw [List.getD_eq_getElem?_getD, List.getElem?_replicate, if_pos hi]
    norm_num

/-- Witness for C9 (amended) at the first dimension. -/
theorem setupSVMModel_wellformed_witness :
    0 < ECG_BUFFER_SIZE ∧ (setupSVMModel ℚ).featureStds.getD 0 0 ≠ 0 :=
  ⟨by rw [ECG_BUFFER_SIZE]; omega,
    setupSVMModel_wellformed.2.2.2.2 0 (by rw [ECG_BUFFER_SIZE]; omega)⟩

end ECG
